import Mathlib

/-!
# Verification of the Login Scraper Agent service

A shallow embedding, in Lean 4, of the Python module `login_scraper_agent.py`:
an HTTP service that accepts a URL plus login credentials, delegates the
login/scrape work to an external streaming agent, and exposes polling
endpoints over an in-memory job registry.

Strings are modelled as `List Char`.  The whitespace class is the ASCII core
common to Python's regex `\s` and `str.strip()` (` \t\n\r\x0b\x0c`); lowering
is ASCII lowercasing, as all relevant patterns and markers are ASCII.
-/

namespace LoginScraper

abbrev Str := List Char

/-- ASCII whitespace, the common core of Python's `\s` and `str.strip()`. -/
def pyWS (c : Char) : Bool :=
  c == ' ' || c == '\t' || c == '\n' || c == '\r' || c == '\x0b' || c == '\x0c'

/-- ASCII lowercasing of one character (Python `str.lower` on ASCII text). -/
def lowerChar (c : Char) : Char :=
  if 65 ≤ c.toNat ∧ c.toNat ≤ 90 then Char.ofNat (c.toNat + 32) else c

/-- Lowercase a string (Python `s.lower()` on ASCII text). -/
def lowerS (s : Str) : Str := s.map lowerChar

/-- Python `s.strip()`: remove leading and trailing whitespace. -/
def stripS (s : Str) : Str :=
  ((s.dropWhile pyWS).reverse.dropWhile pyWS).reverse

/-- Does `pat` occur at the very start of `s`?  (Python `s.startswith(pat)`.) -/
def startsW (pat s : Str) : Bool := s.take pat.length == pat

/-- Does `pat` occur at the very end of `s`?  (Python `s.endswith(pat)`.) -/
def endsW (pat s : Str) : Bool := s.reverse.take pat.length == pat.reverse

/-- Index of the first occurrence of `pat` in `s`, if any
(the search performed by `re.search` for a literal pattern). -/
def findPat (pat : Str) : Str → Option Nat
  | [] => if startsW pat [] then some 0 else none
  | c :: rest =>
    if startsW pat (c :: rest) then some 0 else (findPat pat rest).map (· + 1)

/-- Python `pat in s.lower()` for an ASCII-lowercase literal `pat`. -/
def containsLower (pat s : Str) : Bool := (findPat pat (lowerS s)).isSome

/-- The opening marker of an HTML-tagged fenced block. -/
def fenceHtml : Str := '`' :: '`' :: '`' :: 'h' :: 't' :: 'm' :: 'l' :: []

/-- A plain code fence. -/
def fence : Str := '`' :: '`' :: '`' :: []

/-- The regex step `re.search(r"(three backticks)html\s*(.*?)\s*(three backticks)",
response, re.DOTALL | re.IGNORECASE)` followed by `.group(1).strip()`.

The leftmost match of that pattern starts at the first (case-insensitive)
occurrence of the html fence marker that is followed, at distance ≥ 7, by a
closing fence; with a greedy `\s*`, a lazy group and a greedy `\s*`, the
group is exactly the interior up to the first closing fence, with leading
and trailing whitespace removed.  If the first marker occurrence has no
closing fence after it, no later occurrence has one either, so the search
fails. -/
def fencedGroup (response : Str) : Option Str :=
  match findPat fenceHtml (lowerS response) with
  | none => none
  | some i =>
    let after := response.drop (i + 7)
    match findPat fence after with
    | none => none
    | some j => some (stripS (after.take j))

/-- The function `extract_html_from_response` of `login_scraper_agent.py`:
if a fenced `html` block is found, return its stripped interior when it
looks like HTML (starts with `<`, ends with `>`), else `None`; otherwise
return the whole stripped response when it starts with `<!DOCTYPE html`,
or starts with `<html` and ends with `</html>`; otherwise `None`. -/
def extract_html_from_response (response : Str) : Option Str :=
  match fencedGroup response with
  | some extracted_html =>
    if startsW ('<' :: []) extracted_html && endsW ('>' :: []) extracted_html then
      some extracted_html
    else
      none
  | none =>
    let stripped_response := stripS response
    if startsW "<!DOCTYPE html".toList stripped_response
        || (startsW "<html".toList stripped_response
            && endsW "</html>".toList stripped_response) then
      some stripped_response
    else
      none

/-! ## Job model and background task -/

/-- The `ScrapingJob` pydantic model (its fields, as optional strings). -/
structure ScrapingJob where
  job_id : Str
  status : Str
  vm_url : Option Str := none
  html_content : Option Str := none
  error : Option Str := none
  langsmith_trace_url : Option Str := none
  started_at : Str
  completed_at : Option Str := none
deriving DecidableEq, Repr

/-- One streamed chunk from `cua_graph.astream`, restricted to the keys the
loop body reads.  Each field is `some s` when the corresponding key is
present with string value `s`, else `none`. -/
structure Chunk where
  run_info_run_id : Option Str := none
  chunk_run_id : Option Str := none
  vm_instance_url : Option Str := none
  agent_response : Option Str := none
  output : Option Str := none
  content : Option Str := none
deriving DecidableEq, Repr

/-- Python `a or b` on optional strings: `a` unless it is falsy
(`None` or the empty string). -/
def pyOr (a b : Option Str) : Option Str :=
  match a with
  | some s => if s.isEmpty then b else some s
  | none => b

/-- Python truthiness of an optional string. -/
def truthyOpt : Option Str → Bool
  | some s => !s.isEmpty
  | none => false

/-- The local state of the streaming loop in `process_scraping_job`:
the `run_id` and `vm_url` locals, the `agent_final_response` accumulator,
and the job record the loop mutates in place. -/
structure LoopState where
  run_id : Option Str
  vm_url : Option Str
  agent_final_response : Str
  job : ScrapingJob
deriving DecidableEq, Repr

def traceUrlOf (run_id : Str) : Str :=
  "https://smith.langchain.com/runs/".toList ++ run_id

/-- First part of the loop body:
`current_run_id = chunk.get("run_info", {}).get("run_id") or chunk.get("run_id")`,
then the one-time recording of `run_id` and (if tracing is configured)
of the trace URL. -/
def stepRun (langsmith : Bool) (st : LoopState) (c : Chunk) : LoopState :=
  if truthyOpt (pyOr c.run_info_run_id c.chunk_run_id) && !truthyOpt st.run_id then
    if langsmith then
      { st with
        run_id := pyOr c.run_info_run_id c.chunk_run_id,
        job := { st.job with
          langsmith_trace_url :=
            some (traceUrlOf ((pyOr c.run_info_run_id c.chunk_run_id).getD [])) } }
    else { st with run_id := pyOr c.run_info_run_id c.chunk_run_id }
  else st

/-- Second part of the loop body: `current_vm_info = chunk.get("vm_instance")`,
then the recording of `vm_url` while the local `vm_url` is falsy. -/
def stepVm (st : LoopState) (c : Chunk) : LoopState :=
  match c.vm_instance_url with
  | some u =>
    if !truthyOpt st.vm_url then
      { st with vm_url := some u, job := { st.job with vm_url := some u } }
    else st
  | none => st

/-- Third part of the loop body:
`response_part = chunk.get("agent_response") or chunk.get("output") or
chunk.get("content")`, accumulated when it is a string. -/
def stepResp (st : LoopState) (c : Chunk) : LoopState :=
  match pyOr (pyOr c.agent_response c.output) c.content with
  | some s => { st with agent_final_response := st.agent_final_response ++ s }
  | none => st

/-- One iteration of the `async for chunk in cua_graph.astream(...)` loop.
`langsmith` says whether a LangSmith client is configured. -/
def processChunk (langsmith : Bool) (st : LoopState) (c : Chunk) : LoopState :=
  stepResp (stepVm (stepRun langsmith st c) c) c

/-- The loop state right after `status = "running"`, before any chunk. -/
def initState (job : ScrapingJob) : LoopState :=
  ⟨none, none, [], { job with status := "running".toList }⟩

/-- Run the streaming loop over a list of chunks. -/
def runStream (langsmith : Bool) (st : LoopState) : List Chunk → LoopState
  | [] => st
  | c :: cs => runStream langsmith (processChunk langsmith st c) cs

/-- All loop states reached while streaming (initial state included). -/
def streamStates (langsmith : Bool) (st : LoopState) : List Chunk → List LoopState
  | [] => st :: []
  | c :: cs => st :: streamStates langsmith (processChunk langsmith st c) cs

/-- The assignment `error_message = agent_final_response.strip() if
agent_final_response else "Agent produced no output or failed to extract HTML."` -/
def initialError (resp : Str) : Str :=
  if !resp.isEmpty then stripS resp
  else "Agent produced no output or failed to extract HTML.".toList

/-- The error-classification step on the no-HTML path: keep the stripped
response when it is truthy and mentions one of the known failure phrases,
else replace it with the generic could-not-extract message. -/
def classify_error (resp : Str) : Str :=
  if (initialError resp).isEmpty
      || (!containsLower "login failed".toList (initialError resp)
          && !containsLower "captcha".toList (initialError resp)
          && !containsLower "cloudflare".toList (initialError resp)
          && !containsLower "2fa".toList (initialError resp)) then
    "Failed to extract HTML. Agent response: ".toList ++ resp.take 500
  else initialError resp

/-- Prefix of the error message built on the exception path. -/
def unhandledExcMsg : Str := "Unhandled exception during agent execution: ".toList

/-- The final status update at the end of `process_scraping_job`:
set `completed_at`, then branch on the truthiness of `error_message`. -/
def finalUpdate (job : ScrapingJob) (now : Str) (error_message : Option Str)
    (html_content : Option Str) : ScrapingJob :=
  if truthyOpt error_message then
    { job with completed_at := some now,
               status := "failed".toList, error := error_message, html_content := none }
  else
    { job with completed_at := some now,
               status := "completed".toList, html_content := html_content, error := none }

/-- The background task `process_scraping_job`, as a function of the submitted job record, the
stream of chunks the agent yields, an optional exception raised after those
chunks (`some msg` models any exception anywhere in the `try` block, with
`str(e) = msg`), and the completion timestamp `now`.  The function is total:
the exception is caught and never propagates. -/
def process_scraping_job (langsmith : Bool) (job0 : ScrapingJob)
    (chunks : List Chunk) (exc : Option Str) (now : Str) : ScrapingJob :=
  let st := runStream langsmith (initState job0) chunks
  match exc with
  | some m => finalUpdate st.job now (some (unhandledExcMsg ++ m)) none
  | none =>
    match extract_html_from_response st.agent_final_response with
    | some h => finalUpdate st.job now none (some h)
    | none => finalUpdate st.job now (some (classify_error st.agent_final_response)) none

/-! ## Job registry and HTTP surface -/

/-- Decimal rendering of a natural number (Python `str(int)` / f-string). -/
def natDigits (n : Nat) : Str :=
  if h : n < 10 then Char.ofNat (48 + n) :: []
  else natDigits (n / 10) ++ (Char.ofNat (48 + n % 10) :: [])
termination_by n
decreasing_by
  exact Nat.div_lt_self (Nat.lt_of_lt_of_le (by decide) (Nat.le_of_not_lt h)) (by decide)

/-- The id assignment
`job_id = f"job_{len(scraping_jobs) + 1}_{int(datetime.now().timestamp())}"`,
as a function of the current registry size `n` and the timestamp string. -/
def jobId (n : Nat) (ts : Str) : Str :=
  "job_".toList ++ natDigits (n + 1) ++ ('_' :: []) ++ ts

/-- The job record created at submission time. -/
def newJob (job_id started : Str) : ScrapingJob :=
  { job_id := job_id, status := "pending".toList, started_at := started }

/-- The in-memory `scraping_jobs` registry, in insertion order. -/
abbrev JobStore := List (Str × ScrapingJob)

/-- Python `dict` lookup: the binding written last wins. -/
def lookupJob (store : JobStore) (job_id : Str) : Option ScrapingJob :=
  store.foldl (fun acc e => if e.1 = job_id then some e.2 else acc) none

/-- The `POST /api/scrape` handler: allocate an id from the registry size,
insert a pending record, schedule the background task, return the id.
Returns the new registry and the returned job id. -/
def scrape_page (store : JobStore) (ts : Str) : JobStore × Str :=
  let job_id := jobId store.length ts
  (store ++ ((job_id, newJob job_id ts) :: []), job_id)

/-- The `GET /api/jobs/{job_id}` handler: the job record, or a 404 error. -/
def get_job_status (store : JobStore) (job_id : Str) : Except Nat ScrapingJob :=
  match lookupJob store job_id with
  | some job => Except.ok job
  | none => Except.error 404

/-- A sequence of submissions (one timestamp string each); returns the final
registry and the list of job ids returned to the callers, in order. -/
def submitSeq : List Str → JobStore → JobStore × List Str
  | [], store => (store, [])
  | ts :: rest, store =>
    let p := scrape_page store ts
    let q := submitSeq rest p.1
    (q.1, p.2 :: q.2)

/-! ## Status traces -/

/-- Rank of a job status in the lifecycle order. -/
def statusRank (s : Str) : Nat :=
  if s = "pending".toList then 0 else if s = "running".toList then 1 else 2

def isTerminal (s : Str) : Bool :=
  s == "completed".toList || s == "failed".toList

/-- Every state the job record of one job goes through, in order: the
pending record made at submission, the record over the streaming loop
(set to running first), and the final record. -/
def jobTrace (langsmith : Bool) (job_id started : Str) (chunks : List Chunk)
    (exc : Option Str) (now : Str) : List ScrapingJob :=
  newJob job_id started ::
    (streamStates langsmith (initState (newJob job_id started)) chunks).map (·.job)
    ++ (process_scraping_job langsmith (newJob job_id started) chunks exc now :: [])

/-! ## Helper lemmas: prefixes, suffixes, substring search -/

theorem startsW_iff {p s : Str} : startsW p s = true ↔ ∃ t, s = p ++ t := by
  unfold startsW
  rw [beq_iff_eq]
  constructor
  · intro h
    exact ⟨s.drop p.length, by conv_lhs => rw [← List.take_append_drop p.length s, h]⟩
  · rintro ⟨t, rfl⟩
    exact List.take_left p t

theorem endsW_iff {p s : Str} : endsW p s = true ↔ ∃ t, s = t ++ p := by
  unfold endsW
  rw [beq_iff_eq]
  constructor
  · intro h
    refine ⟨(s.reverse.drop p.length).reverse, ?_⟩
    have h2 : s.reverse = p.reverse ++ s.reverse.drop p.length := by
      conv_lhs => rw [← List.take_append_drop p.length s.reverse, h]
    have h3 := congrArg List.reverse h2
    simpa using h3
  · rintro ⟨t, rfl⟩
    rw [List.reverse_append, ← List.length_reverse p]
    exact List.take_left p.reverse t.reverse

theorem findPat_isSome_iff {p s : Str} :
    (findPat p s).isSome = true ↔ ∃ x y, s = x ++ p ++ y := by
  induction s with
  | nil =>
    unfold findPat
    by_cases h : startsW p ([] : Str) = true
    · obtain ⟨t, ht⟩ := startsW_iff.mp h
      simp only [h, if_true, Option.isSome_some, true_iff]
      refine ⟨[], t, ?_⟩
      simpa using ht
    · rw [if_neg h]
      simp only [Option.isSome_none, Bool.false_eq_true, false_iff]
      rintro ⟨x, y, hxy⟩
      have h2 : x ++ p = [] := (List.append_eq_nil.mp hxy.symm).1
      have hp : p = [] := (List.append_eq_nil.mp h2).2
      exact h (startsW_iff.mpr ⟨[], by simp [hp]⟩)
  | cons c rest ih =>
    unfold findPat
    by_cases h : startsW p (c :: rest) = true
    · obtain ⟨t, ht⟩ := startsW_iff.mp h
      simp only [h, if_true, Option.isSome_some, true_iff]
      exact ⟨[], t, by simpa using ht⟩
    · rw [if_neg h]
      rw [Option.isSome_map', ih]
      constructor
      · rintro ⟨x, y, rfl⟩
        exact ⟨c :: x, y, by simp⟩
      · rintro ⟨x, y, hxy⟩
        match x, hxy with
        | [], hxy =>
          exfalso
          apply h
          apply startsW_iff.mpr
          exact ⟨y, by simpa using hxy⟩
        | a :: x2, hxy =>
          rw [List.cons_append, List.cons_append, List.cons.injEq] at hxy
          exact ⟨x2, y, hxy.2⟩

theorem findPat_none_iff {p s : Str} :
    findPat p s = none ↔ ¬ ∃ x y, s = x ++ p ++ y := by
  rw [← findPat_isSome_iff]
  cases h : findPat p s <;> simp

/-! ## Stripping preserves occurrences of whitespace-free patterns -/

theorem stripS_decomp (s : Str) :
    ∃ u v, s = u ++ stripS s ++ v
      ∧ (∀ c ∈ u, pyWS c = true) ∧ (∀ c ∈ v, pyWS c = true) := by
  refine ⟨s.takeWhile pyWS, ((s.dropWhile pyWS).reverse.takeWhile pyWS).reverse, ?_, ?_, ?_⟩
  · unfold stripS
    conv_lhs => rw [← List.takeWhile_append_dropWhile (p := pyWS) (l := s)]
    rw [List.append_assoc]
    congr 1
    have h := congrArg List.reverse
      (List.takeWhile_append_dropWhile (p := pyWS) (l := (s.dropWhile pyWS).reverse))
    rw [List.reverse_append, List.reverse_reverse] at h
    exact h.symm
  · intro c hc
    exact List.mem_takeWhile_imp hc
  · intro c hc
    rw [List.mem_reverse] at hc
    exact List.mem_takeWhile_imp hc

theorem occ_left {c0 : Char} {t : Str} (hc : pyWS c0 = false) :
    ∀ (U R x y : Str), (∀ c ∈ U, pyWS c = true) →
      U ++ R = x ++ (c0 :: t) ++ y → ∃ x1, R = x1 ++ (c0 :: t) ++ y ∧ x = U ++ x1 := by
  intro U
  induction U with
  | nil =>
    intro R x y _ he
    exact ⟨x, by simpa using he, by simp⟩
  | cons u U2 ih =>
    intro R x y hU he
    match x with
    | [] =>
      exfalso
      rw [List.nil_append, List.cons_append] at he
      have hu : u = c0 := (List.cons.injEq .. ▸ he).1
      have := hU u (by simp)
      rw [hu, hc] at this
      exact Bool.false_ne_true this
    | a :: x2 =>
      rw [List.cons_append, List.cons_append, List.cons_append] at he
      have h1 : u = a := (List.cons.injEq .. ▸ he).1
      have h2 : U2 ++ R = x2 ++ (c0 :: t) ++ y := by
        have := (List.cons.injEq .. ▸ he).2
        simpa [List.append_assoc] using this
      obtain ⟨x1, hR, hx⟩ := ih R x2 y (fun c hcm => hU c (by simp [hcm])) h2
      exact ⟨x1, hR, by rw [h1, hx]; simp⟩

theorem occ_mid {p : Str} (hp : p ≠ []) (hpc : ∀ c ∈ p, pyWS c = false)
    {U C V x y : Str} (hU : ∀ c ∈ U, pyWS c = true) (hV : ∀ c ∈ V, pyWS c = true)
    (he : U ++ C ++ V = x ++ p ++ y) : ∃ x2 y2, C = x2 ++ p ++ y2 := by
  match hp2 : p with
  | c0 :: t =>
  have hc0 : pyWS c0 = false := hpc c0 (by simp)
  have he2 : U ++ (C ++ V) = x ++ (c0 :: t) ++ y := by
    rw [← List.append_assoc]; exact he
  obtain ⟨x1, hCV, _⟩ := occ_left hc0 U (C ++ V) x y hU he2
  -- now transport from the right by reversing everything
  have hrev : V.reverse ++ C.reverse = y.reverse ++ (c0 :: t).reverse ++ x1.reverse := by
    have := congrArg List.reverse hCV
    simpa [List.reverse_append, List.append_assoc] using this
  match hq : (c0 :: t).reverse with
  | [] => exact absurd (congrArg List.length hq) (by simp)
  | c1 :: t1 =>
    have hc1 : pyWS c1 = false := by
      apply hpc
      have : c1 ∈ (c0 :: t).reverse := by rw [hq]; simp
      rwa [List.mem_reverse] at this
    rw [hq] at hrev
    obtain ⟨x2, hCr, _⟩ := occ_left hc1 V.reverse C.reverse y.reverse x1.reverse
      (fun c hcm => hV c (List.mem_reverse.mp hcm)) hrev
    refine ⟨x1, x2.reverse, ?_⟩
    have := congrArg List.reverse hCr
    rw [List.reverse_reverse] at this
    rw [this, ← hq]
    simp [List.reverse_append, List.append_assoc]

theorem lowerChar_ws {c : Char} (h : pyWS c = true) : lowerChar c = c := by
  unfold pyWS at h
  simp only [Bool.or_eq_true, beq_iff_eq] at h
  rcases h with ((((h | h) | h) | h) | h) | h <;> subst h <;> decide

theorem containsLower_stripS {p s : Str} (hne : p ≠ [])
    (hpc : ∀ c ∈ p, pyWS c = false) (h : containsLower p s = true) :
    containsLower p (stripS s) = true := by
  unfold containsLower at h ⊢
  rw [findPat_isSome_iff] at h ⊢
  obtain ⟨x, y, hxy⟩ := h
  obtain ⟨u, v, hs, hu, hv⟩ := stripS_decomp s
  have hls : lowerS s = lowerS u ++ lowerS (stripS s) ++ lowerS v := by
    conv_lhs => rw [hs]
    simp [lowerS]
  rw [hls] at hxy
  refine occ_mid hne hpc ?_ ?_ hxy
  · intro c hc
    obtain ⟨c2, hc2, rfl⟩ := List.mem_map.mp hc
    rw [lowerChar_ws (hu c2 hc2)]
    exact hu c2 hc2
  · intro c hc
    obtain ⟨c2, hc2, rfl⟩ := List.mem_map.mp hc
    rw [lowerChar_ws (hv c2 hc2)]
    exact hv c2 hc2

/-! ## Lemmas about the streaming loop and the final update -/

theorem stepRun_job_status : (stepRun l st c).job.status = st.job.status := by
  unfold stepRun; split <;> first | rfl | (split <;> rfl)

theorem stepVm_job_status : (stepVm st c).job.status = st.job.status := by
  unfold stepVm; split <;> first | rfl | (split <;> rfl)

theorem stepResp_job_status : (stepResp st c).job.status = st.job.status := by
  unfold stepResp; split <;> rfl

theorem processChunk_job_status : (processChunk l st c).job.status = st.job.status := by
  unfold processChunk; rw [stepResp_job_status, stepVm_job_status, stepRun_job_status]

theorem stepRun_job_completed_at :
    (stepRun l st c).job.completed_at = st.job.completed_at := by
  unfold stepRun; split <;> first | rfl | (split <;> rfl)

theorem stepVm_job_completed_at :
    (stepVm st c).job.completed_at = st.job.completed_at := by
  unfold stepVm; split <;> first | rfl | (split <;> rfl)

theorem stepResp_job_completed_at :
    (stepResp st c).job.completed_at = st.job.completed_at := by
  unfold stepResp; split <;> rfl

theorem processChunk_job_completed_at :
    (processChunk l st c).job.completed_at = st.job.completed_at := by
  unfold processChunk
  rw [stepResp_job_completed_at, stepVm_job_completed_at, stepRun_job_completed_at]

theorem runStream_job_status (l : Bool) (cs : List Chunk) :
    ∀ st, (runStream l st cs).job.status = st.job.status := by
  induction cs with
  | nil => intro st; rfl
  | cons c cs ih =>
    intro st
    rw [runStream, ih, processChunk_job_status]

theorem runStream_job_completed_at (l : Bool) (cs : List Chunk) :
    ∀ st, (runStream l st cs).job.completed_at = st.job.completed_at := by
  induction cs with
  | nil => intro st; rfl
  | cons c cs ih =>
    intro st
    rw [runStream, ih, processChunk_job_completed_at]

theorem streamStates_status_map (l : Bool) (cs : List Chunk) :
    ∀ st, (streamStates l st cs).map (·.job.status)
      = List.replicate (cs.length + 1) st.job.status := by
  induction cs with
  | nil => intro st; rfl
  | cons c cs ih =>
    intro st
    rw [streamStates, List.map_cons, ih, processChunk_job_status]
    rfl

theorem streamStates_completed_at (l : Bool) (cs : List Chunk) :
    ∀ st s, s ∈ streamStates l st cs → s.job.completed_at = st.job.completed_at := by
  induction cs with
  | nil =>
    intro st s hs
    rw [streamStates] at hs
    simpa using (List.mem_singleton.mp hs) ▸ rfl
  | cons c cs ih =>
    intro st s hs
    rw [streamStates] at hs
    rcases List.mem_cons.mp hs with h | h
    · rw [h]
    · rw [ih _ s h, processChunk_job_completed_at]

theorem unhandledExcMsg_ne_nil : unhandledExcMsg ≠ [] := by decide

theorem append_ne_nil_left {a b : Str} (h : a ≠ []) : a ++ b ≠ [] := by
  intro hab
  exact h (List.append_eq_nil.mp hab).1

theorem truthy_some {s : Str} (h : s ≠ []) : truthyOpt (some s) = true := by
  unfold truthyOpt
  cases s with
  | nil => exact absurd rfl h
  | cons a t => rfl

theorem classify_error_ne_nil (resp : Str) : classify_error resp ≠ [] := by
  unfold classify_error
  split
  · exact append_ne_nil_left (by decide)
  · rename_i h
    rw [Bool.or_eq_true, not_or] at h
    intro he
    exact h.1 (by rw [he]; rfl)

theorem finalUpdate_of_truthy {em : Option Str} (ht : truthyOpt em = true)
    (j : ScrapingJob) (now : Str) (hc : Option Str) :
    (finalUpdate j now em hc).status = "failed".toList
      ∧ (finalUpdate j now em hc).error = em
      ∧ (finalUpdate j now em hc).html_content = none
      ∧ (finalUpdate j now em hc).completed_at = some now := by
  unfold finalUpdate
  rw [if_pos ht]
  exact ⟨rfl, rfl, rfl, rfl⟩

theorem finalUpdate_of_falsy {em : Option Str} (ht : truthyOpt em = false)
    (j : ScrapingJob) (now : Str) (hc : Option Str) :
    (finalUpdate j now em hc).status = "completed".toList
      ∧ (finalUpdate j now em hc).html_content = hc
      ∧ (finalUpdate j now em hc).error = none
      ∧ (finalUpdate j now em hc).completed_at = some now := by
  unfold finalUpdate
  rw [if_neg (by rw [ht]; exact Bool.false_ne_true)]
  exact ⟨rfl, rfl, rfl, rfl⟩

theorem process_completed_at (l : Bool) (j0 : ScrapingJob) (cs : List Chunk)
    (exc : Option Str) (now : Str) :
    (process_scraping_job l j0 cs exc now).completed_at = some now := by
  unfold process_scraping_job
  cases exc with
  | some m =>
    exact (finalUpdate_of_truthy (truthy_some (append_ne_nil_left unhandledExcMsg_ne_nil)) _ _ _).2.2.2
  | none =>
    dsimp only
    cases h : extract_html_from_response (runStream l (initState j0) cs).agent_final_response with
    | some hh =>
      exact (finalUpdate_of_falsy (show truthyOpt none = false from rfl) _ _ _).2.2.2
    | none =>
      exact (finalUpdate_of_truthy (truthy_some (classify_error_ne_nil _)) _ _ _).2.2.2

theorem process_status_cases (l : Bool) (j0 : ScrapingJob) (cs : List Chunk)
    (exc : Option Str) (now : Str) :
    (process_scraping_job l j0 cs exc now).status = "failed".toList
      ∨ (process_scraping_job l j0 cs exc now).status = "completed".toList := by
  unfold process_scraping_job
  cases exc with
  | some m =>
    exact Or.inl
      (finalUpdate_of_truthy (truthy_some (append_ne_nil_left unhandledExcMsg_ne_nil)) _ _ _).1
  | none =>
    dsimp only
    cases h : extract_html_from_response (runStream l (initState j0) cs).agent_final_response with
    | some hh =>
      exact Or.inr (finalUpdate_of_falsy (show truthyOpt none = false from rfl) _ _ _).1
    | none =>
      exact Or.inl (finalUpdate_of_truthy (truthy_some (classify_error_ne_nil _)) _ _ _).1

/-! ## Lemmas about job ids and the registry -/

/-- Numeric value of a decimal digit character. -/
def digitVal (c : Char) : Nat := c.toNat - 48

/-- Numeric value of a decimal digit string. -/
def valDigits (l : Str) : Nat := l.foldl (fun a c => 10 * a + digitVal c) 0

theorem digitVal_ofNat {d : Nat} (h : d < 10) : digitVal (Char.ofNat (48 + d)) = d := by
  interval_cases d <;> decide

theorem valDigits_concat (l : Str) (c : Char) :
    valDigits (l ++ (c :: [])) = 10 * valDigits l + digitVal c := by
  unfold valDigits
  rw [List.foldl_append]
  rfl

theorem valDigits_natDigits (n : Nat) : valDigits (natDigits n) = n := by
  induction n using Nat.strong_induction_on with
  | _ n ih =>
    unfold natDigits
    split
    · rename_i h
      show valDigits (Char.ofNat (48 + n) :: []) = n
      unfold valDigits
      simp [digitVal_ofNat h]
    · rename_i h
      rw [valDigits_concat,
        ih (n / 10) (Nat.div_lt_self (by omega) (by decide)),
        digitVal_ofNat (Nat.mod_lt _ (by decide))]
      omega

theorem natDigits_inj {m n : Nat} (h : natDigits m = natDigits n) : m = n := by
  have h2 := congrArg valDigits h
  rwa [valDigits_natDigits, valDigits_natDigits] at h2

theorem natDigits_digit (n : Nat) : ∀ c ∈ natDigits n, 48 ≤ c.toNat ∧ c.toNat ≤ 57 := by
  induction n using Nat.strong_induction_on with
  | _ n ih =>
    unfold natDigits
    split
    · rename_i h
      intro c hc
      rw [List.mem_singleton] at hc
      subst hc
      interval_cases n <;> decide
    · rename_i h
      intro c hc
      rcases List.mem_append.mp hc with h2 | h2
      · exact ih (n / 10) (Nat.div_lt_self (by omega) (by decide)) c h2
      · rw [List.mem_singleton] at h2
        subst h2
        have h9 : n % 10 < 10 := Nat.mod_lt _ (by decide)
        generalize hd : n % 10 = d at h9 ⊢
        interval_cases d <;> decide

theorem natDigits_no_sep (n : Nat) : ∀ c ∈ natDigits n, c ≠ '_' := by
  intro c hc he
  have h2 := (natDigits_digit n c hc).2
  rw [he] at h2
  exact absurd h2 (by decide)

theorem sep_split : ∀ (a b c d : Str), (∀ x ∈ a, x ≠ '_') → (∀ x ∈ b, x ≠ '_') →
    a ++ ('_' :: c) = b ++ ('_' :: d) → a = b ∧ c = d := by
  intro a
  induction a with
  | nil =>
    intro b c d _ hb he
    match b with
    | [] => exact ⟨rfl, by simpa using he⟩
    | x :: b2 =>
      exfalso
      rw [List.nil_append, List.cons_append] at he
      exact hb x (by simp) ((List.cons.injEq .. ▸ he).1).symm
  | cons x a2 ih =>
    intro b c d ha hb he
    match b with
    | [] =>
      exfalso
      rw [List.nil_append, List.cons_append] at he
      exact ha x (by simp) (List.cons.injEq .. ▸ he).1
    | y :: b2 =>
      rw [List.cons_append, List.cons_append] at he
      have hxy : x = y := (List.cons.injEq .. ▸ he).1
      have htl := (List.cons.injEq .. ▸ he).2
      obtain ⟨h1, h2⟩ := ih b2 c d
        (fun z hz => ha z (by simp [hz])) (fun z hz => hb z (by simp [hz])) htl
      exact ⟨by rw [hxy, h1], h2⟩

theorem jobId_inj_counter {n1 n2 : Nat} {t1 t2 : Str}
    (h : jobId n1 t1 = jobId n2 t2) : n1 = n2 := by
  unfold jobId at h
  rw [List.append_assoc, List.append_assoc, List.append_assoc, List.append_assoc] at h
  have h2 := List.append_cancel_left h
  rw [List.singleton_append, List.singleton_append] at h2
  have h3 := sep_split _ _ _ _ (natDigits_no_sep _) (natDigits_no_sep _) h2
  have h4 := natDigits_inj h3.1
  omega

theorem lookupJob_last (store : JobStore) (k : Str) (v : ScrapingJob) :
    lookupJob (store ++ ((k, v) :: [])) k = some v := by
  unfold lookupJob
  rw [List.foldl_append]
  simp

theorem scrape_page_length (store : JobStore) (ts : Str) :
    (scrape_page store ts).1.length = store.length + 1 := by
  unfold scrape_page
  simp

theorem submitSeq_counter :
    ∀ (tss : List Str) (store : JobStore) (i : Nat)
      (h : i < ((submitSeq tss store).2).length),
      ∃ t, ((submitSeq tss store).2).get ⟨i, h⟩ = jobId (store.length + i) t := by
  intro tss
  induction tss with
  | nil =>
    intro store i h
    exact absurd h (by simp [submitSeq])
  | cons ts rest ih =>
    intro store i h
    match i with
    | 0 => exact ⟨ts, rfl⟩
    | i + 1 =>
      have h2 : i < ((submitSeq rest (scrape_page store ts).1).2).length := by
        have := h
        simpa [submitSeq] using this
      obtain ⟨t, ht⟩ := ih (scrape_page store ts).1 i h2
      refine ⟨t, ?_⟩
      show ((submitSeq rest (scrape_page store ts).1).2).get ⟨i, h2⟩
        = jobId (store.length + (i + 1)) t
      rw [ht, scrape_page_length]
      congr 1
      omega

theorem submitSeq_keys : ∀ (tss : List Str) (store : JobStore),
    ((submitSeq tss store).1).map Prod.fst
      = store.map Prod.fst ++ (submitSeq tss store).2 := by
  intro tss
  induction tss with
  | nil => intro store; simp [submitSeq]
  | cons ts rest ih =>
    intro store
    show ((submitSeq rest (scrape_page store ts).1).1).map Prod.fst
      = store.map Prod.fst ++ (jobId store.length ts :: (submitSeq rest (scrape_page store ts).1).2)
    rw [ih (scrape_page store ts).1]
    show ((scrape_page store ts).1).map Prod.fst ++ _ = _
    unfold scrape_page
    simp

theorem submitSeq_nodup (tss : List Str) : ((submitSeq tss []).2).Nodup := by
  rw [List.Nodup, List.pairwise_iff_get]
  intro i j hij
  obtain ⟨t1, ht1⟩ := submitSeq_counter tss [] i.1 i.2
  obtain ⟨t2, ht2⟩ := submitSeq_counter tss [] j.1 j.2
  rw [ht1, ht2]
  intro he
  exact absurd (jobId_inj_counter he) (by simpa using Nat.ne_of_lt hij)

/-! ## Lemmas about the error classification -/

theorem isEmpty_false_of_ne {s : Str} (h : s ≠ []) : s.isEmpty = false := by
  cases s with
  | nil => exact absurd rfl h
  | cons a t => rfl

theorem containsLower_ne_nil {p s : Str} (hp : p ≠ [])
    (h : containsLower p s = true) : s ≠ [] := by
  unfold containsLower at h
  rw [findPat_isSome_iff] at h
  obtain ⟨x, y, hxy⟩ := h
  intro hs
  subst hs
  have hx : (x ++ p) ++ y = [] := hxy.symm
  exact hp (List.append_eq_nil.mp (List.append_eq_nil.mp hx).1).2

theorem classify_keeps_captcha {resp : Str}
    (h : containsLower "captcha".toList resp = true) :
    classify_error resp = stripS resp
      ∧ containsLower "captcha".toList (classify_error resp) = true := by
  have hne : resp ≠ [] := containsLower_ne_nil (by decide) h
  have hstrip : containsLower "captcha".toList (stripS resp) = true :=
    containsLower_stripS (by decide) (by decide) h
  have hie : initialError resp = stripS resp := by
    unfold initialError
    rw [isEmpty_false_of_ne hne]
    rfl
  have hsne : stripS resp ≠ [] := containsLower_ne_nil (by decide) hstrip
  have hcl : classify_error resp = stripS resp := by
    unfold classify_error
    rw [hie, if_neg]
    rw [isEmpty_false_of_ne hsne, hstrip]
    simp
  exact ⟨hcl, by rw [hcl]; exact hstrip⟩

/-! ## Lemmas about the status trace -/

theorem statusRank_running : statusRank "running".toList = 1 := by decide

theorem chain_repl {t : Str} (ht : 1 ≤ statusRank t) :
    ∀ k, List.Chain' (fun a b => statusRank a ≤ statusRank b)
      (List.replicate k "running".toList ++ (t :: [])) := by
  intro k
  induction k with
  | zero => simp
  | succ k ih =>
    rw [List.replicate_succ, List.cons_append, List.chain'_cons']
    refine ⟨?_, ih⟩
    intro y hy
    cases k with
    | zero =>
      simp at hy
      rw [statusRank_running, ← hy]
      exact ht
    | succ k =>
      rw [List.replicate_succ, List.cons_append, List.head?_cons, Option.mem_some_iff] at hy
      rw [statusRank_running, ← hy, statusRank_running]

theorem jobTrace_status_eq (l : Bool) (id ts : Str) (cs : List Chunk)
    (exc : Option Str) (now : Str) :
    (jobTrace l id ts cs exc now).map (·.status)
      = ("pending".toList :: List.replicate (cs.length + 1) "running".toList)
        ++ ((process_scraping_job l (newJob id ts) cs exc now).status :: []) := by
  unfold jobTrace
  simp only [List.map_append, List.map_cons, List.map_map, List.map_nil]
  rw [show ((fun x : ScrapingJob => x.status) ∘ fun x : LoopState => x.job)
    = (fun x : LoopState => x.job.status) from rfl]
  rw [streamStates_status_map]
  rfl

theorem streamStates_status_all {l : Bool} {st : LoopState} {cs : List Chunk} :
    ∀ s ∈ streamStates l st cs, s.job.status = st.job.status := by
  intro s hs
  have h2 : s.job.status ∈ (streamStates l st cs).map (·.job.status) :=
    List.mem_map.mpr ⟨s, hs, rfl⟩
  rw [streamStates_status_map] at h2
  exact List.eq_of_mem_replicate h2

/-! ## Claim theorems -/

/-- C1: for the terminal job record produced by the background task, exactly
one of `html_content` and `error` is set: `status = "completed"` gives a
non-null `html_content` and a null `error`; `status = "failed"` gives a
non-null `error` and a null `html_content`. -/
theorem c1_terminal_mutual_exclusion (l : Bool) (j0 : ScrapingJob)
    (cs : List Chunk) (exc : Option Str) (now : Str) :
    ((process_scraping_job l j0 cs exc now).status = "completed".toList →
        (∃ h, (process_scraping_job l j0 cs exc now).html_content = some h)
          ∧ (process_scraping_job l j0 cs exc now).error = none)
    ∧ ((process_scraping_job l j0 cs exc now).status = "failed".toList →
        (∃ e, (process_scraping_job l j0 cs exc now).error = some e)
          ∧ (process_scraping_job l j0 cs exc now).html_content = none) := by
  unfold process_scraping_job
  cases exc with
  | some m =>
    obtain ⟨h1, h2, h3, _⟩ :=
      finalUpdate_of_truthy (truthy_some (append_ne_nil_left unhandledExcMsg_ne_nil))
        (runStream l (initState j0) cs).job now none
    constructor
    · intro hcomp
      rw [h1] at hcomp
      exact absurd hcomp (by decide)
    · intro _
      exact ⟨⟨_, h2⟩, h3⟩
  | none =>
    dsimp only
    cases hx : extract_html_from_response (runStream l (initState j0) cs).agent_final_response with
    | some hh =>
      obtain ⟨h1, h2, h3, _⟩ :=
        finalUpdate_of_falsy (show truthyOpt none = false from rfl) (runStream l (initState j0) cs).job now (some hh)
      constructor
      · intro _
        exact ⟨⟨hh, h2⟩, h3⟩
      · intro hfail
        rw [h1] at hfail
        exact absurd hfail (by decide)
    | none =>
      obtain ⟨h1, h2, h3, _⟩ :=
        finalUpdate_of_truthy (truthy_some (classify_error_ne_nil _))
          (runStream l (initState j0) cs).job now none
      constructor
      · intro hcomp
        rw [h1] at hcomp
        exact absurd hcomp (by decide)
      · intro _
        exact ⟨⟨_, h2⟩, h3⟩

/-- C5: any exception raised during the agent invocation or streaming is
caught; the job ends `"failed"` and its error message contains the
exception's message.  The embedding's `process_scraping_job` is total, so
the exception never propagates out of the task. -/
theorem c5_exception_caught (l : Bool) (j0 : ScrapingJob) (cs : List Chunk)
    (m now : Str) :
    (process_scraping_job l j0 cs (some m) now).status = "failed".toList
    ∧ (process_scraping_job l j0 cs (some m) now).error = some (unhandledExcMsg ++ m)
    ∧ ∃ x y, unhandledExcMsg ++ m = x ++ m ++ y := by
  unfold process_scraping_job
  obtain ⟨h1, h2, _, _⟩ :=
    finalUpdate_of_truthy (truthy_some (append_ne_nil_left unhandledExcMsg_ne_nil))
      (runStream l (initState j0) cs).job now none
  exact ⟨h1, h2, unhandledExcMsg, [], by simp⟩

/-- C4: along the job's lifecycle trace, the status starts at `"pending"`,
moves monotonically through the ranks `pending → running → terminal`,
reaches a terminal value exactly once (at the last state), and every
earlier state is non-terminal. -/
theorem c4_status_monotone (l : Bool) (id ts : Str) (cs : List Chunk)
    (exc : Option Str) (now : Str) :
    ((jobTrace l id ts cs exc now).map (·.status)).head? = some "pending".toList
    ∧ List.Chain' (fun a b => statusRank a ≤ statusRank b)
        ((jobTrace l id ts cs exc now).map (·.status))
    ∧ (∃ t, ((jobTrace l id ts cs exc now).map (·.status)).getLast? = some t
        ∧ isTerminal t = true)
    ∧ ∀ s ∈ ((jobTrace l id ts cs exc now).map (·.status)).dropLast,
        isTerminal s = false := by
  rw [jobTrace_status_eq]
  have hterm : isTerminal (process_scraping_job l (newJob id ts) cs exc now).status = true := by
    rcases process_status_cases l (newJob id ts) cs exc now with h | h <;> rw [h] <;> decide
  have hrank : 1 ≤ statusRank (process_scraping_job l (newJob id ts) cs exc now).status := by
    rcases process_status_cases l (newJob id ts) cs exc now with h | h <;> rw [h] <;> decide
  refine ⟨?_, ?_, ?_, ?_⟩
  · rw [List.cons_append]
    rfl
  · rw [List.cons_append, List.chain'_cons']
    refine ⟨?_, chain_repl hrank _⟩
    intro y hy
    rw [List.replicate_succ, List.cons_append, List.head?_cons, Option.mem_some_iff] at hy
    rw [← hy]
    decide
  · exact ⟨_, List.getLast?_concat _, hterm⟩
  · rw [List.dropLast_concat]
    intro s hs
    rcases List.mem_cons.mp hs with h | h
    · rw [h]; decide
    · rw [List.eq_of_mem_replicate h]; decide

/-- C9: `completed_at` is non-null exactly on terminal records: every state
in the job's trace satisfies `completed_at.isSome = isTerminal status`, and
the background task stamps `completed_at = now` on every path (success,
classification failure, and exception). -/
theorem c9_completed_at_iff_terminal (l : Bool) (id ts : Str) (cs : List Chunk)
    (exc : Option Str) (now : Str) :
    (process_scraping_job l (newJob id ts) cs exc now).completed_at = some now
    ∧ ∀ j ∈ jobTrace l id ts cs exc now,
        j.completed_at.isSome = isTerminal j.status := by
  refine ⟨process_completed_at l (newJob id ts) cs exc now, ?_⟩
  intro j hj
  unfold jobTrace at hj
  rcases List.mem_append.mp hj with h | h
  · rcases List.mem_cons.mp h with h | h
    · rw [h]
      rfl
    · obtain ⟨s, hs, hsj⟩ := List.mem_map.mp h
      rw [← hsj]
      have hc := streamStates_completed_at l cs (initState (newJob id ts)) s hs
      have hst := streamStates_status_all s hs
      rw [hc, hst]
      rfl
  · rw [List.mem_singleton.mp h]
    rw [process_completed_at]
    rcases process_status_cases l (newJob id ts) cs exc now with h2 | h2 <;> rw [h2] <;> rfl

/-- C6: when no HTML can be extracted from the accumulated agent response,
the job fails with the classified error: the stripped response is kept as
the error when it mentions a known failure phrase, else a generic
could-not-extract message is used; in particular a response mentioning
CAPTCHA yields a failed job whose error mentions CAPTCHA. -/
theorem c6_failure_classification (l : Bool) (j0 : ScrapingJob) (cs : List Chunk)
    (now : Str)
    (hx : extract_html_from_response
      (runStream l (initState j0) cs).agent_final_response = none) :
    (process_scraping_job l j0 cs none now).status = "failed".toList
    ∧ (process_scraping_job l j0 cs none now).error
        = some (classify_error (runStream l (initState j0) cs).agent_final_response)
    ∧ (containsLower "captcha".toList
          (runStream l (initState j0) cs).agent_final_response = true →
        ∃ e, (process_scraping_job l j0 cs none now).error = some e
          ∧ containsLower "captcha".toList e = true) := by
  unfold process_scraping_job
  dsimp only
  rw [hx]
  obtain ⟨h1, h2, _, _⟩ :=
    finalUpdate_of_truthy (truthy_some (classify_error_ne_nil _))
      (runStream l (initState j0) cs).job now none
  refine ⟨h1, h2, ?_⟩
  intro hcap
  obtain ⟨_, hcont⟩ := classify_keeps_captcha hcap
  exact ⟨_, h2, hcont⟩

/-- Witness for C6: the agent streams `"Login failed: CAPTCHA detected."`
and no HTML block; the job fails and the error mentions CAPTCHA. -/
theorem c6_failure_classification_witness :
    extract_html_from_response
      (runStream false (initState (newJob ('j' :: []) ('t' :: [])))
        (({ agent_response := some "Login failed: CAPTCHA detected.".toList } : Chunk)
          :: [])).agent_final_response = none
    ∧ ((process_scraping_job false (newJob ('j' :: []) ('t' :: []))
          (({ agent_response := some "Login failed: CAPTCHA detected.".toList } : Chunk)
            :: []) none ('T' :: [])).status = "failed".toList
      ∧ (process_scraping_job false (newJob ('j' :: []) ('t' :: []))
          (({ agent_response := some "Login failed: CAPTCHA detected.".toList } : Chunk)
            :: []) none ('T' :: [])).error
          = some (classify_error
              (runStream false (initState (newJob ('j' :: []) ('t' :: [])))
                (({ agent_response := some "Login failed: CAPTCHA detected.".toList } : Chunk)
                  :: [])).agent_final_response)
      ∧ (containsLower "captcha".toList
            (runStream false (initState (newJob ('j' :: []) ('t' :: [])))
              (({ agent_response := some "Login failed: CAPTCHA detected.".toList } : Chunk)
                :: [])).agent_final_response = true →
          ∃ e, (process_scraping_job false (newJob ('j' :: []) ('t' :: []))
              (({ agent_response := some "Login failed: CAPTCHA detected.".toList } : Chunk)
                :: []) none ('T' :: [])).error = some e
            ∧ containsLower "captcha".toList e = true)) :=
  ⟨by decide,
    c6_failure_classification false (newJob ('j' :: []) ('t' :: []))
      (({ agent_response := some "Login failed: CAPTCHA detected.".toList } : Chunk) :: [])
      ('T' :: []) (by decide)⟩

theorem startsW_head {c : Char} {pt s : Str} (h : startsW (c :: pt) s = true) :
    s ≠ [] ∧ s.head? = some c := by
  obtain ⟨t, ht⟩ := startsW_iff.mp h
  rw [ht, List.cons_append]
  exact ⟨List.cons_ne_nil _ _, rfl⟩

/-- C10: whenever the parser returns a value, it is a non-empty string
whose first character is `<`; in particular it never returns the empty
string (an empty or whitespace-only fenced block yields `None` instead). -/
theorem c10_extract_nonempty_lt (response e : Str)
    (h : extract_html_from_response response = some e) :
    e ≠ [] ∧ e.head? = some '<' := by
  unfold extract_html_from_response at h
  cases hfg : fencedGroup response with
  | some g =>
    rw [hfg] at h
    dsimp only at h
    by_cases hc : (startsW ('<' :: []) g && endsW ('>' :: []) g) = true
    · rw [if_pos hc] at h
      have hc2 : startsW ('<' :: []) g = true ∧ endsW ('>' :: []) g = true := by
        simpa using hc
      rw [← Option.some.inj h]
      exact startsW_head hc2.1
    · rw [if_neg hc] at h
      exact absurd h (by simp)
  | none =>
    rw [hfg] at h
    dsimp only at h
    by_cases hc : (startsW "<!DOCTYPE html".toList (stripS response)
        || (startsW "<html".toList (stripS response)
            && endsW "</html>".toList (stripS response))) = true
    · rw [if_pos hc] at h
      rw [← Option.some.inj h]
      have hc2 : startsW "<!DOCTYPE html".toList (stripS response) = true
          ∨ (startsW "<html".toList (stripS response) = true
            ∧ endsW "</html>".toList (stripS response) = true) := by
        simpa using hc
      rcases hc2 with hd | hh
      · exact startsW_head hd
      · exact startsW_head hh.1
    · rw [if_neg hc] at h
      exact absurd h (by simp)

/-- Witness for C10 at a concrete fenced block. -/
theorem c10_extract_nonempty_lt_witness :
    extract_html_from_response "```html\n<p>hi</p>\n```".toList = some "<p>hi</p>".toList
    ∧ ("<p>hi</p>".toList ≠ [] ∧ ("<p>hi</p>".toList).head? = some '<') :=
  ⟨by decide,
    c10_extract_nonempty_lt "```html\n<p>hi</p>\n```".toList "<p>hi</p>".toList (by decide)⟩

/-- C2 counterexample: the input holds a fenced HTML block whose trimmed
interior is `"hello"`, yet the parser returns `None` rather than that
interior, because the interior does not start with `<` and end with `>`. -/
theorem c2_counterexample :
    fencedGroup "```html\nhello\n```".toList = some "hello".toList
    ∧ extract_html_from_response "```html\nhello\n```".toList = none :=
  ⟨by decide, by decide⟩

/-- C2 amended: for text containing a fenced HTML block, the parser returns
the trimmed interior only when that interior starts with `<` and ends with
`>`, and `None` otherwise; for text with no fenced block and no leading
document tag after stripping, the parser returns nothing. -/
theorem c2_amended :
    (∀ text g, fencedGroup text = some g →
      extract_html_from_response text
        = if startsW ('<' :: []) g && endsW ('>' :: []) g then some g else none)
    ∧ (∀ text, findPat fenceHtml (lowerS text) = none →
        startsW "<!DOCTYPE html".toList (stripS text) = false →
        startsW "<html".toList (stripS text) = false →
        extract_html_from_response text = none) := by
  constructor
  · intro text g hg
    unfold extract_html_from_response
    rw [hg]
  · intro text h1 h2 h3
    unfold extract_html_from_response
    have hfg : fencedGroup text = none := by
      unfold fencedGroup
      rw [h1]
    rw [hfg]
    dsimp only
    rw [h2, h3]
    rfl

/-- Witness for C2 amended: a good fenced block round-trips; markerless
text yields nothing. -/
theorem c2_amended_witness :
    extract_html_from_response "pre ```html <p>q</p> ``` post".toList
      = some "<p>q</p>".toList
    ∧ extract_html_from_response "plain words only".toList = none := by
  constructor
  · rw [c2_amended.1 "pre ```html <p>q</p> ``` post".toList "<p>q</p>".toList (by decide)]
    decide
  · exact c2_amended.2 "plain words only".toList (by decide) (by decide) (by decide)

/-- C3 counterexample: the input is a non-whitespace prefix, a full
`<html>...</html>` substring, and a suffix; the claimed raw-substring
fallback would return the `<html>...</html>` part, but the parser
returns `None`. -/
theorem c3_counterexample :
    "Result: <html><body>hi</body></html> Done.".toList
      = "Result: ".toList ++ "<html><body>hi</body></html>".toList ++ " Done.".toList
    ∧ extract_html_from_response "Result: <html><body>hi</body></html> Done.".toList
        = none :=
  ⟨by decide, by decide⟩

/-- C3 amended: when no fenced HTML block is found, the parser has exactly
one fallback: it returns the whole stripped response when that starts with
`<!DOCTYPE html`, or starts with `<html` and ends with `</html>`; there is
no fenced-document-tag fallback, no raw `<html>...</html>` substring
extraction out of surrounding text, and no `<body>` heuristic. -/
theorem c3_amended (text : Str)
    (hfence : findPat fenceHtml (lowerS text) = none) :
    extract_html_from_response text
      = if startsW "<!DOCTYPE html".toList (stripS text)
            || (startsW "<html".toList (stripS text)
                && endsW "</html>".toList (stripS text))
        then some (stripS text) else none := by
  unfold extract_html_from_response
  have hfg : fencedGroup text = none := by
    unfold fencedGroup
    rw [hfence]
  rw [hfg]

/-- Witness for C3 amended: the whole-response fallback fires when the
stripped response is exactly an `<html>...</html>` document. -/
theorem c3_amended_witness :
    extract_html_from_response "  <html><body>hi</body></html>  ".toList
      = some "<html><body>hi</body></html>".toList := by
  rw [c3_amended "  <html><body>hi</body></html>  ".toList (by decide)]
  decide

/-- C7: job ids built from distinct registry sizes are distinct (so the ids
returned across a submission sequence are pairwise distinct and are exactly
the registry keys); a freshly submitted id resolves immediately to a
pending record; an id absent from the registry yields a 404. -/
theorem c7_job_ids (tss : List Str) (store : JobStore) (ts job_id : Str) :
    (∀ n1 t1 n2 t2, n1 ≠ n2 → jobId n1 t1 ≠ jobId n2 t2)
    ∧ (∃ j, get_job_status (scrape_page store ts).1 (scrape_page store ts).2
          = Except.ok j ∧ j.status = "pending".toList)
    ∧ (lookupJob store job_id = none →
        get_job_status store job_id = Except.error 404)
    ∧ ((submitSeq tss []).2).Nodup
    ∧ ((submitSeq tss []).1).map Prod.fst = (submitSeq tss []).2 := by
  refine ⟨?_, ?_, ?_, submitSeq_nodup tss, by simpa using submitSeq_keys tss []⟩
  · intro n1 t1 n2 t2 hne he
    exact hne (jobId_inj_counter he)
  · refine ⟨newJob (jobId store.length ts) ts, ?_, rfl⟩
    unfold get_job_status
    rw [show (scrape_page store ts).1
      = store ++ ((jobId store.length ts, newJob (jobId store.length ts) ts) :: []) from rfl]
    rw [show (scrape_page store ts).2 = jobId store.length ts from rfl]
    rw [lookupJob_last]
  · intro h
    unfold get_job_status
    rw [h]

/-- Witness for C7: an unknown id on the empty registry yields 404. -/
theorem c7_job_ids_witness :
    lookupJob [] "nope".toList = none
    ∧ get_job_status [] "nope".toList = Except.error 404 :=
  ⟨by decide,
    (c7_job_ids ("1".toList :: []) [] ('9' :: []) "nope".toList).2.2.1 (by decide)⟩

/-! ## First-wins behaviour of the streamed URLs (C8) -/

theorem stepRun_vm_url : (stepRun l st c).vm_url = st.vm_url := by
  unfold stepRun; split <;> first | rfl | (split <;> rfl)

theorem stepRun_job_vm_url : (stepRun l st c).job.vm_url = st.job.vm_url := by
  unfold stepRun; split <;> first | rfl | (split <;> rfl)

theorem stepVm_run_id : (stepVm st c).run_id = st.run_id := by
  unfold stepVm; split <;> first | rfl | (split <;> rfl)

theorem stepVm_job_trace :
    (stepVm st c).job.langsmith_trace_url = st.job.langsmith_trace_url := by
  unfold stepVm; split <;> first | rfl | (split <;> rfl)

theorem stepResp_run_id : (stepResp st c).run_id = st.run_id := by
  unfold stepResp; split <;> rfl

theorem stepResp_vm_url : (stepResp st c).vm_url = st.vm_url := by
  unfold stepResp; split <;> rfl

theorem stepResp_job : (stepResp st c).job = st.job := by
  unfold stepResp; split <;> rfl

theorem stepRun_frozen (h : truthyOpt st.run_id = true) : stepRun l st c = st := by
  unfold stepRun
  rw [if_neg]
  rw [h]
  simp

theorem stepRun_trace_off (st : LoopState) (c : Chunk) :
    (stepRun false st c).job.langsmith_trace_url = st.job.langsmith_trace_url := by
  unfold stepRun
  split
  · rw [if_neg Bool.false_ne_true]
  · rfl

theorem stepVm_frozen {u : Str} (hu : st.vm_url = some u) (hne : u ≠ []) :
    stepVm st c = st := by
  unfold stepVm
  split
  · rw [if_neg]
    rw [hu, truthy_some hne]
    simp
  · rfl

theorem processChunk_run_frozen (h : truthyOpt st.run_id = true) :
    (processChunk l st c).run_id = st.run_id
      ∧ (processChunk l st c).job.langsmith_trace_url = st.job.langsmith_trace_url := by
  unfold processChunk
  rw [stepResp_run_id, stepVm_run_id, stepRun_frozen h, stepResp_job, stepVm_job_trace]
  exact ⟨rfl, rfl⟩

theorem processChunk_trace_off (st : LoopState) (c : Chunk) :
    (processChunk false st c).job.langsmith_trace_url = st.job.langsmith_trace_url := by
  unfold processChunk
  rw [stepResp_job, stepVm_job_trace, stepRun_trace_off]

theorem processChunk_vm_frozen {u : Str} (hu : st.vm_url = some u) (hne : u ≠ []) :
    (processChunk l st c).vm_url = st.vm_url
      ∧ (processChunk l st c).job.vm_url = st.job.vm_url := by
  unfold processChunk
  have h1 : (stepRun l st c).vm_url = some u := by rw [stepRun_vm_url, hu]
  rw [stepResp_vm_url, stepVm_frozen h1 hne, stepRun_vm_url, stepResp_job,
    stepRun_job_vm_url]
  exact ⟨rfl, rfl⟩

theorem runStream_run_frozen (l : Bool) (cs : List Chunk) :
    ∀ st, truthyOpt st.run_id = true →
      (runStream l st cs).run_id = st.run_id
        ∧ (runStream l st cs).job.langsmith_trace_url = st.job.langsmith_trace_url := by
  induction cs with
  | nil => intro st _; exact ⟨rfl, rfl⟩
  | cons c cs ih =>
    intro st h
    obtain ⟨h1, h2⟩ := processChunk_run_frozen (l := l) (c := c) h
    have ht : truthyOpt (processChunk l st c).run_id = true := by rw [h1]; exact h
    obtain ⟨h3, h4⟩ := ih (processChunk l st c) ht
    exact ⟨by rw [runStream, h3, h1], by rw [runStream, h4, h2]⟩

theorem runStream_trace_off (cs : List Chunk) :
    ∀ st, (runStream false st cs).job.langsmith_trace_url
      = st.job.langsmith_trace_url := by
  induction cs with
  | nil => intro st; rfl
  | cons c cs ih =>
    intro st
    rw [runStream, ih, processChunk_trace_off]

theorem runStream_vm_frozen (l : Bool) (cs : List Chunk) :
    ∀ st (u : Str), st.vm_url = some u → u ≠ [] →
      (runStream l st cs).vm_url = st.vm_url
        ∧ (runStream l st cs).job.vm_url = st.job.vm_url := by
  induction cs with
  | nil => intro st u _ _; exact ⟨rfl, rfl⟩
  | cons c cs ih =>
    intro st u hu hne
    obtain ⟨h1, h2⟩ := processChunk_vm_frozen (l := l) (c := c) hu hne
    have hu2 : (processChunk l st c).vm_url = some u := by rw [h1, hu]
    obtain ⟨h3, h4⟩ := ih (processChunk l st c) u hu2 hne
    exact ⟨by rw [runStream, h3, h1], by rw [runStream, h4, h2]⟩

/-- C8 counterexample: the first chunk carries a virtual-machine handle
with an empty URL and the job records it; a later chunk carrying a handle
overwrites the recorded value, because the loop only checks truthiness of
the local `vm_url` and the empty string is falsy. -/
theorem c8_counterexample :
    (runStream false (initState (newJob ('j' :: []) ('t' :: [])))
        (({ vm_instance_url := some [] } : Chunk) :: [])).job.vm_url = some []
    ∧ (runStream false (initState (newJob ('j' :: []) ('t' :: [])))
        (({ vm_instance_url := some [] } : Chunk)
          :: ({ vm_instance_url := some ('x' :: []) } : Chunk) :: [])).job.vm_url
        = some ('x' :: []) :=
  ⟨by decide, by decide⟩

theorem processChunk_run_record {st : LoopState} {c : Chunk} (l : Bool)
    (ht : truthyOpt st.run_id = false)
    (hc : truthyOpt (pyOr c.run_info_run_id c.chunk_run_id) = true) :
    (processChunk l st c).run_id = pyOr c.run_info_run_id c.chunk_run_id
    ∧ (l = true → (processChunk l st c).job.langsmith_trace_url
        = some (traceUrlOf ((pyOr c.run_info_run_id c.chunk_run_id).getD []))) := by
  constructor
  · unfold processChunk
    rw [stepResp_run_id, stepVm_run_id]
    unfold stepRun
    rw [if_pos (by rw [hc, ht]; rfl)]
    split <;> rfl
  · intro hl
    subst hl
    unfold processChunk
    rw [stepResp_job, stepVm_job_trace]
    unfold stepRun
    rw [if_pos (by rw [hc, ht]; rfl), if_pos rfl]

/-- C8 amended: the trace URL is one-time, first-wins — the first chunk
carrying a truthy run identifier records the run id and, when tracing is
configured, sets the trace URL derived from it; afterwards neither the run
id nor the trace URL changes for the rest of the stream, and with tracing
unconfigured the trace URL is never set.  The VM URL is taken from the
first chunk carrying a virtual-machine handle but is first-wins only once
a non-empty URL is recorded — a recorded empty-string VM URL may still be
overwritten by a later chunk. -/
theorem c8_first_wins (l : Bool) (st : LoopState) (cs : List Chunk) (c : Chunk) :
    (truthyOpt st.run_id = true →
        (runStream l st cs).run_id = st.run_id
          ∧ (runStream l st cs).job.langsmith_trace_url = st.job.langsmith_trace_url)
    ∧ ((runStream false st cs).job.langsmith_trace_url = st.job.langsmith_trace_url)
    ∧ (∀ u, st.vm_url = some u → u ≠ [] →
        (runStream l st cs).vm_url = st.vm_url
          ∧ (runStream l st cs).job.vm_url = st.job.vm_url)
    ∧ (∀ u, st.vm_url = none → c.vm_instance_url = some u →
        (processChunk l st c).vm_url = some u
          ∧ (processChunk l st c).job.vm_url = some u)
    ∧ (truthyOpt st.run_id = false →
        truthyOpt (pyOr c.run_info_run_id c.chunk_run_id) = true →
        (processChunk l st c).run_id = pyOr c.run_info_run_id c.chunk_run_id
          ∧ (l = true → (processChunk l st c).job.langsmith_trace_url
              = some (traceUrlOf ((pyOr c.run_info_run_id c.chunk_run_id).getD [])))) := by
  refine ⟨runStream_run_frozen l cs st, runStream_trace_off cs st,
    fun u hu hne => runStream_vm_frozen l cs st u hu hne, ?_,
    fun ht hc => processChunk_run_record l ht hc⟩
  intro u hn hc
  unfold processChunk stepVm
  have h1 : (stepRun l st c).vm_url = none := by rw [stepRun_vm_url, hn]
  rw [hc]
  rw [h1]
  rw [stepResp_vm_url]
  constructor
  · rfl
  · rw [stepResp_job]
    rfl

/-- Witness for C8 amended: with a truthy run id already recorded, a later
chunk carrying a different run id changes nothing; and from an unset state,
a chunk carrying a truthy run id records the run id and, with tracing
configured, sets the trace URL derived from it. -/
theorem c8_first_wins_witness :
    (truthyOpt (some ('r' :: [])) = true
      ∧ ((runStream true
            (⟨some ('r' :: []), some ('v' :: []), [], newJob ('j' :: []) ('t' :: [])⟩
              : LoopState)
            (({ chunk_run_id := some ('s' :: []) } : Chunk) :: [])).run_id
          = some ('r' :: [])
        ∧ (runStream true
            (⟨some ('r' :: []), some ('v' :: []), [], newJob ('j' :: []) ('t' :: [])⟩
              : LoopState)
            (({ chunk_run_id := some ('s' :: []) } : Chunk) :: [])).job.langsmith_trace_url
          = (newJob ('j' :: []) ('t' :: [])).langsmith_trace_url))
    ∧ (truthyOpt (initState (newJob ('j' :: []) ('t' :: []))).run_id = false
      ∧ truthyOpt (pyOr ({ run_info_run_id := some ('r' :: []) } : Chunk).run_info_run_id
            ({ run_info_run_id := some ('r' :: []) } : Chunk).chunk_run_id) = true
      ∧ ((processChunk true (initState (newJob ('j' :: []) ('t' :: [])))
            ({ run_info_run_id := some ('r' :: []) } : Chunk)).run_id
          = pyOr ({ run_info_run_id := some ('r' :: []) } : Chunk).run_info_run_id
              ({ run_info_run_id := some ('r' :: []) } : Chunk).chunk_run_id
        ∧ (true = true →
            (processChunk true (initState (newJob ('j' :: []) ('t' :: [])))
              ({ run_info_run_id := some ('r' :: []) } : Chunk)).job.langsmith_trace_url
            = some (traceUrlOf
                ((pyOr ({ run_info_run_id := some ('r' :: []) } : Chunk).run_info_run_id
                  ({ run_info_run_id := some ('r' :: []) } : Chunk).chunk_run_id).getD []))))) :=
  ⟨⟨by decide,
    (c8_first_wins true
      (⟨some ('r' :: []), some ('v' :: []), [], newJob ('j' :: []) ('t' :: [])⟩ : LoopState)
      (({ chunk_run_id := some ('s' :: []) } : Chunk) :: [])
      ({ } : Chunk)).1 (by decide)⟩,
   by decide, by decide,
    (c8_first_wins true (initState (newJob ('j' :: []) ('t' :: []))) []
      ({ run_info_run_id := some ('r' :: []) } : Chunk)).2.2.2.2 (by decide) (by decide)⟩

/-- Witness for C1: a streamed fenced HTML block completes the job with the
HTML set and the error null. -/
theorem c1_terminal_mutual_exclusion_witness :
    (process_scraping_job false (newJob ('j' :: []) ('t' :: []))
        (({ output := some "```html\n<p>x</p>\n```".toList } : Chunk) :: [])
        none ('T' :: [])).status = "completed".toList
    ∧ ((∃ h, (process_scraping_job false (newJob ('j' :: []) ('t' :: []))
          (({ output := some "```html\n<p>x</p>\n```".toList } : Chunk) :: [])
          none ('T' :: [])).html_content = some h)
      ∧ (process_scraping_job false (newJob ('j' :: []) ('t' :: []))
          (({ output := some "```html\n<p>x</p>\n```".toList } : Chunk) :: [])
          none ('T' :: [])).error = none) :=
  ⟨by decide,
    (c1_terminal_mutual_exclusion false (newJob ('j' :: []) ('t' :: []))
      (({ output := some "```html\n<p>x</p>\n```".toList } : Chunk) :: [])
      none ('T' :: [])).1 (by decide)⟩

/-- Witness for C4: the pending head of the trace is before the last entry
and is non-terminal. -/
theorem c4_status_monotone_witness :
    "pending".toList ∈
      ((jobTrace false ('j' :: []) ('t' :: []) [] none ('T' :: [])).map (·.status)).dropLast
    ∧ isTerminal "pending".toList = false :=
  ⟨by decide,
    (c4_status_monotone false ('j' :: []) ('t' :: []) [] none ('T' :: [])).2.2.2 _ (by decide)⟩

/-- Witness for C9: the submission-time record is in the trace, is
non-terminal, and has no completion timestamp. -/
theorem c9_completed_at_iff_terminal_witness :
    newJob ('j' :: []) ('t' :: []) ∈ jobTrace false ('j' :: []) ('t' :: []) [] none ('T' :: [])
    ∧ (newJob ('j' :: []) ('t' :: [])).completed_at.isSome
        = isTerminal (newJob ('j' :: []) ('t' :: [])).status :=
  ⟨by decide,
    (c9_completed_at_iff_terminal false ('j' :: []) ('t' :: []) [] none ('T' :: [])).2
      _ (by decide)⟩

end LoginScraper
